import Mathlib

/-!
Shallow embedding of the Order-Management backend (src/backend/server.js):
the data model (users, products, orders, order lines), the order-placement
endpoint (POST /orders: validation, the create-and-decrement transaction,
the post-commit version bump), the listing endpoint (GET /orders: version
read, cache lookup, store query, pagination, cache write), and the
version-counter helpers (getOrdersVer / bumpOrdersVer / buildOrdersKey).

JavaScript numbers carried by requests and rows (price, stock, quantity,
total) are modelled as rationals; a request field that may be absent is an
Option.  Faults of the external collaborators (the cache client throwing on
an operation, the transaction aborting at a step, the external version
write failing) are injected as explicit parameters, since the JavaScript
observes them only as thrown exceptions.
-/

namespace OrderApp

/-- A row of the User table. -/
structure User where
  id : Nat
  name : String
  email : String
deriving Repr, DecidableEq

/-- A row of the Product table: unit price and remaining stock. -/
structure Product where
  id : Nat
  name : String
  price : ℚ
  stock : ℚ
deriving Repr, DecidableEq

/-- An OrderLine row: the data pushed into orderItemsData in the
validation loop and created inside the transaction (price is the snapshot
taken from the product at validation time). -/
structure OrderItemData where
  productId : Nat
  quantity : ℚ
  price : ℚ
deriving Repr, DecidableEq

/-- An Order row together with its included orderItems relation. -/
structure Order where
  id : Nat
  userId : Nat
  total : ℚ
  orderItems : List OrderItemData
  createdAt : Nat
deriving Repr, DecidableEq

/-- The relational store: users, products, orders, and the id the next
created order receives. -/
structure DB where
  users : List User
  products : List Product
  orders : List Order
  nextOrderId : Nat
deriving Repr, DecidableEq

/-- Process-wide server state: the store, the in-process ORDERS_VER
variable, whether the Redis client is connected (redisClient && redisReady),
and the externally persisted orders:ver value when one has been written. -/
structure SrvState where
  db : DB
  ordersVer : Nat
  redisReady : Bool
  redisVer : Option Nat
deriving Repr, DecidableEq

/-- One line of a POST /orders request body; quantity is absent when the
JSON field is missing. -/
structure ItemReq where
  productId : Nat
  quantity : Option ℚ
deriving Repr, DecidableEq

/-- A POST /orders request body ({ userId, items }); userId 0 models the
falsy userId the shape check rejects. -/
structure PlaceReq where
  userId : Nat
  items : List ItemReq
deriving Repr, DecidableEq

/-- The error payloads the placement endpoint can produce, carrying the
same data as the JSON messages of server.js. -/
inductive ErrMsg where
  | userIdItemsRequired
  | userNotFound
  | someProductsNotFound
  | productNotFound (pid : Nat)
  | invalidQuantity (pid : Nat)
  | notEnoughStock (name : String) (available : ℚ)
  | internal
deriving Repr, DecidableEq

/-- An HTTP status paired with an error payload. -/
structure ErrResp where
  status : Nat
  msg : ErrMsg
deriving Repr, DecidableEq

/-- The response of POST /orders: 201 with the created order, or an error
status with a payload. -/
inductive Resp where
  | created (status : Nat) (order : Order)
  | err (status : Nat) (msg : ErrMsg)
deriving Repr, DecidableEq

/-- Number(item.quantity || 0): a missing (or zero, falsy) quantity
coerces to 0. -/
def numberOrZero : Option ℚ → ℚ
  | none => 0
  | some v => v

/-- prisma.product.findMany({ where: { id: { in: ids } } }): the product
rows whose id occurs among ids, each row at most once. -/
def findManyProducts (db : DB) (ids : List Nat) : List Product :=
  db.products.filter (fun p => ids.contains p.id)

/-- The per-line validation loop of POST /orders: find the product among
the fetched rows, reject a coerced quantity below 1, reject a quantity
above the product's stock, and otherwise accumulate the total (price *
quantity, at the price fetched before the transaction) and the
orderItemsData entry. -/
def validateItems (products : List Product) : List ItemReq → Except ErrResp (ℚ × List OrderItemData)
  | [] => .ok (0, [])
  | item :: rest =>
    match products.find? (fun p => p.id == item.productId) with
    | none => .error ⟨404, .productNotFound item.productId⟩
    | some product =>
      let q := numberOrZero item.quantity
      if q < 1 then .error ⟨400, .invalidQuantity product.id⟩
      else if product.stock < q then .error ⟨400, .notEnoughStock product.name product.stock⟩
      else
        match validateItems products rest with
        | .error e => .error e
        | .ok (t, ds) => .ok (product.price * q + t, ⟨product.id, q, product.price⟩ :: ds)

/-- Everything POST /orders does before prisma.$transaction: the request
shape check, the user lookup, the product fetch with its count check, and
the validation loop. -/
def validatePhase (db : DB) (req : PlaceReq) : Except ErrResp (User × ℚ × List OrderItemData) :=
  if req.userId = 0 ∨ req.items = [] then .error ⟨400, .userIdItemsRequired⟩
  else
    match db.users.find? (fun u => u.id == req.userId) with
    | none => .error ⟨404, .userNotFound⟩
    | some user =>
      let productIds := req.items.map (fun i => i.productId)
      let products := findManyProducts db productIds
      if products.length ≠ req.items.length then .error ⟨404, .someProductsNotFound⟩
      else
        match validateItems products req.items with
        | .error e => .error e
        | .ok (total, ds) => .ok (user, total, ds)

/-- The order row tx.order.create builds (lines included); createdAt is
identified with the order id, which increases with creation order. -/
def createdOrder (db : DB) (userId : Nat) (total : ℚ) (ds : List OrderItemData) : Order :=
  ⟨db.nextOrderId, userId, total, ds, db.nextOrderId⟩

/-- The first transaction step: insert the order row with its lines.  The
integer validation of the Prisma schema (a file not under src/) is
modelled separately by schemaAcceptsLines and placeOrderSchema; within
placeOrder a schema rejection is one of the injected transaction aborts. -/
def createOp (userId : Nat) (total : ℚ) (ds : List OrderItemData) (db : DB) : DB :=
  { db with orders := db.orders ++ [createdOrder db userId total ds],
            nextOrderId := db.nextOrderId + 1 }

/-- One decrement step of the transaction loop:
tx.product.update({ where: { id }, data: { stock: { decrement: Number(i.quantity) } } }).
This step runs only after the validation loop accepted every line, so the
quantity is present and Number(i.quantity) agrees with numberOrZero.  The
integer stock column of the schema (not under src/) is modelled by
schemaAcceptsLines and placeOrderSchema, like for createOp. -/
def decrementOp (item : ItemReq) (db : DB) : DB :=
  { db with products := db.products.map (fun p =>
      if p.id == item.productId then { p with stock := p.stock - numberOrZero item.quantity } else p) }

/-- Step through the index of the injected transaction failure. -/
def stepPred : Option Nat → Option Nat
  | some (n + 1) => some n
  | _ => none

/-- The outcome the single transaction attempt of the handler draws from
the schedule of attempt outcomes. -/
def txAttempt (txSched : List (Option Nat)) : Option Nat :=
  txSched.headD none

/-- prisma.$transaction on a list of steps, with an injected failure
point: a failure at any step (or at commit, when the index points past the
steps) aborts and rolls the whole transaction back, per the interactive
transaction contract. -/
def runTx : Option Nat → List (DB → DB) → DB → Option DB
  | none, [], db => some db
  | some _, [], _ => none
  | some 0, _ :: _, _ => none
  | failStep, op :: ops, db => runTx (stepPred failStep) ops (op db)

/-- The transaction body of POST /orders: create the order row with its
lines, then decrement each requested product's stock, returning the
created order on commit and nothing on abort. -/
def commitPhase (db : DB) (userId : Nat) (total : ℚ) (ds : List OrderItemData)
    (items : List ItemReq) (failStep : Option Nat) : Option (Order × DB) :=
  match runTx failStep (createOp userId total ds :: items.map decrementOp) db with
  | none => none
  | some db1 => some (createdOrder db userId total ds, db1)

/-- bumpOrdersVer: increment the in-process ORDERS_VER, then write it to
the external store when the client is connected; the external write may
throw (second component true), after the local increment took effect. -/
def bumpOrdersVer (st : SrvState) (writeFails : Bool) : SrvState × Bool :=
  let st1 := { st with ordersVer := st.ordersVer + 1 }
  if st1.redisReady then
    if writeFails then (st1, true)
    else ({ st1 with redisVer := some st1.ordersVer }, false)
  else (st1, false)

/-- POST /orders: validation, the transaction (its attempts drawing their
outcome from the head of txSched; the handler makes exactly one attempt),
the post-commit version bump whose external write may fail, and the
notification hand-off (a console.log that cannot fail).  A thrown
transaction abort or bump failure reaches the catch-all and answers 500
INTERNAL. -/
def placeOrder (req : PlaceReq) (st : SrvState) (txSched : List (Option Nat))
    (bumpWriteFails : Bool) : Resp × SrvState :=
  match validatePhase st.db req with
  | .error e => (.err e.status e.msg, st)
  | .ok (_user, total, ds) =>
    match commitPhase st.db req.userId total ds req.items (txAttempt txSched) with
    | none => (.err 500 .internal, st)
    | some (order, db1) =>
      let st1 := { st with db := db1 }
      let bumped := bumpOrdersVer st1 bumpWriteFails
      if bumped.2 then (.err 500 .internal, bumped.1)
      else (.created 201 order, bumped.1)

/-- The placement request with another request's committed store update
interleaved at the await boundary between the product fetch (where stock
is checked and prices are read) and the transaction: validation reads the
pre-update store, the transaction runs on the updated one. -/
def placeOrderInterleaved (req : PlaceReq) (st : SrvState) (update : DB → DB)
    (txSched : List (Option Nat)) (bumpWriteFails : Bool) : Resp × SrvState :=
  match validatePhase st.db req with
  | .error e => (.err e.status e.msg, { st with db := update st.db })
  | .ok (_user, total, ds) =>
    match commitPhase (update st.db) req.userId total ds req.items (txAttempt txSched) with
    | none => (.err 500 .internal, { st with db := update st.db })
    | some (order, db1) =>
      let st1 := { st with db := db1 }
      let bumped := bumpOrdersVer st1 bumpWriteFails
      if bumped.2 then (.err 500 .internal, bumped.1)
      else (.created 201 order, bumped.1)

/-- getOrdersVer: when the cache client is connected, read the persisted
orders:ver and overwrite the in-process value with it; return the
in-process value. -/
def getOrdersVer (st : SrvState) : Nat × SrvState :=
  if st.redisReady then
    match st.redisVer with
    | some v => (v, { st with ordersVer := v })
    | none => (st.ordersVer, st)
  else (st.ordersVer, st)

/-- buildOrdersKey: the versioned cache key string. -/
def buildOrdersKey (page limit : Nat) (search : String) (ver : Nat) : String :=
  "orders:v" ++ toString ver ++ ":page=" ++ toString page ++ "&limit=" ++ toString limit
    ++ "&search=" ++ search

/-- Whether the first character list occurs contiguously in the second. -/
def charsContain (needle : List Char) : List Char → Bool
  | [] => List.isPrefixOf needle []
  | c :: rest => List.isPrefixOf needle (c :: rest) || charsContain needle rest

/-- Case-insensitive substring match ({ contains, mode: insensitive }). -/
def containsCI (hay needle : String) : Bool :=
  charsContain needle.toLower.toList hay.toLower.toList

/-- The where clause of GET /orders: no filter for an empty (falsy) search
term, otherwise orders whose owning user's name or email contains the term
case-insensitively. -/
def whereFilter (db : DB) (search : String) : List Order :=
  if search = "" then db.orders
  else db.orders.filter (fun o =>
    match db.users.find? (fun u => u.id == o.userId) with
    | some u => containsCI u.name search || containsCI u.email search
    | none => false)

/-- Insert an order into a list sorted by createdAt descending. -/
def insertDesc (o : Order) : List Order → List Order
  | [] => [o]
  | x :: xs => if x.createdAt ≤ o.createdAt then o :: x :: xs else x :: insertDesc o xs

/-- orderBy: { createdAt: desc }. -/
def sortByCreatedAtDesc (l : List Order) : List Order :=
  l.foldr insertDesc []

/-- Math.ceil(total / limit) on the natural operands of the handler. -/
def jsCeilDiv (a b : Nat) : Nat :=
  (a + b - 1) / b

/-- The pagination metadata object of the listing payload. -/
structure Pagination where
  page : Nat
  limit : Nat
  total : Nat
  totalPages : Nat
deriving Repr, DecidableEq

/-- The GET /orders response body: data plus pagination. -/
structure Payload where
  data : List Order
  pagination : Pagination
deriving Repr, DecidableEq

/-- The response of GET /orders: 200 with a payload, or the 500 INTERNAL
of the catch-all. -/
inductive ListResp where
  | ok (payload : Payload)
  | internalErr
deriving Repr, DecidableEq

/-- The cache contents: serialized payloads keyed by the key string (TTL
expiry is not observed by any claim and is left out). -/
abbrev Cache := List (String × Payload)

/-- A GET /orders request after query parsing. -/
structure ListReq where
  page : Nat
  limit : Nat
  search : String
deriving Repr, DecidableEq

/-- The store query and payload construction of GET /orders on a cache
miss: filter, sort newest-first, page with skip/take, count, and the
pagination metadata with totalPages = Math.max(1, Math.ceil(total/limit)). -/
def computePayload (db : DB) (page limit : Nat) (search : String) : Payload :=
  let skip := (page - 1) * limit
  let filtered := whereFilter db search
  let pageData := ((sortByCreatedAtDesc filtered).drop skip).take limit
  let total := filtered.length
  ⟨pageData, ⟨page, limit, total, max 1 (jsCeilDiv total limit)⟩⟩

/-- GET /orders: clamp page and limit to at least 1, read the version,
build the key, consult the cache when the client is connected (a throwing
get reaches the catch-all and answers 500), on a miss query the store,
build the payload, write it back to the cache when connected (a throwing
setEx likewise answers 500), and return the payload. -/
def listOrders (req : ListReq) (st : SrvState) (cache : Cache)
    (getFault setFault : Bool) : ListResp × SrvState × Cache :=
  let page := max 1 req.page
  let limit := max 1 req.limit
  let verSt := getOrdersVer st
  let st1 := verSt.2
  let cacheKey := buildOrdersKey page limit req.search verSt.1
  if st1.redisReady then
    if getFault then (.internalErr, st1, cache)
    else
      match List.lookup cacheKey cache with
      | some payload => (.ok payload, st1, cache)
      | none =>
        let payload := computePayload st1.db page limit req.search
        if setFault then (.internalErr, st1, cache)
        else (.ok payload, st1, (cacheKey, payload) :: cache)
  else (.ok (computePayload st1.db page limit req.search), st1, cache)

/-- The total quantity a request asks of one product (on requests the
count check lets through, at most one line contributes). -/
def sumQty (items : List ItemReq) (pid : Nat) : ℚ :=
  ((items.filter (fun i => i.productId == pid)).map (fun i => numberOrZero i.quantity)).sum

/-- A one-user, one-product store used to instantiate the theorems. -/
def dbOne : DB := ⟨[⟨1, "u", "e"⟩], [⟨1, "A", 10, 5⟩], [], 1⟩

/-- Server state over dbOne with the cache client disconnected. -/
def stOne : SrvState := ⟨dbOne, 1, false, none⟩

/-- Server state over dbOne with the cache client connected. -/
def stOneReady : SrvState := ⟨dbOne, 1, true, none⟩

/-- A well-formed placement request: two units of product 1 for user 1. -/
def reqOne : PlaceReq := ⟨1, [⟨1, some 2⟩]⟩

/-- A placement request with the fractional quantity 3/2. -/
def reqFrac : PlaceReq := ⟨1, [⟨1, some (3/2)⟩]⟩

/-- A placement request naming the same existing product on two lines. -/
def reqDup : PlaceReq := ⟨1, [⟨1, some 1⟩, ⟨1, some 1⟩]⟩

/-- A placement request asking more than the available stock. -/
def reqOver : PlaceReq := ⟨1, [⟨1, some 7⟩]⟩

/-- A concurrent store update that raises every price to 20. -/
def raisePrices : DB → DB :=
  fun db => { db with products := db.products.map (fun p => { p with price := 20 }) }

/-- What a line that survived the validation loop satisfies, and the
order-line row it produces. -/
def lineOk (products : List Product) (i : ItemReq) (d : OrderItemData) : Prop :=
  ∃ p, products.find? (fun p => p.id == i.productId) = some p ∧
    1 ≤ numberOrZero i.quantity ∧ numberOrZero i.quantity ≤ p.stock ∧
    d = ⟨p.id, numberOrZero i.quantity, p.price⟩

/-- The pagination law of the spec: totalPages is the ceiling of total
over limit, and at least 1. -/
def paginationOk (pl : Payload) : Prop :=
  pl.pagination.totalPages
    = max 1 (Nat.ceil ((pl.pagination.total : ℚ) / (pl.pagination.limit : ℚ)))

/-- Modelled from the spec: the Prisma schema file is not under src/; per
the spec's data model an order line's quantity is a positive integer and a
product's stock a non-negative integer, so the integer columns accept a
line exactly when its quantity is integral (denominator 1).  The handler's
own validation has already enforced quantity at least 1 on the path that
reaches the transaction. -/
def schemaAcceptsLines (ds : List OrderItemData) : Bool :=
  ds.all (fun d => d.quantity.den == 1)

/-- Modelled from the spec: POST /orders against the schema that is not
under src/ — handing tx.order.create (or the stock decrement) a
non-integer quantity makes the transaction throw a validation error and
roll back, which the route's catch-all answers as 500 INTERNAL.  This is
placeOrder with that schema validation restored at the transaction
boundary. -/
def placeOrderSchema (req : PlaceReq) (st : SrvState) (txSched : List (Option Nat))
    (bumpWriteFails : Bool) : Resp × SrvState :=
  match validatePhase st.db req with
  | .error e => (.err e.status e.msg, st)
  | .ok (_user, total, ds) =>
    if schemaAcceptsLines ds then
      match commitPhase st.db req.userId total ds req.items (txAttempt txSched) with
      | none => (.err 500 .internal, st)
      | some (order, db1) =>
        let st1 := { st with db := db1 }
        let bumped := bumpOrdersVer st1 bumpWriteFails
        if bumped.2 then (.err 500 .internal, bumped.1)
        else (.created 201 order, bumped.1)
    else (.err 500 .internal, st)

/-! ### Helper lemmas about the transaction steps -/

/-- A committed transaction is the left fold of its steps. -/
theorem runTx_eq_foldl (ops : List (DB → DB)) :
    ∀ (fs : Option Nat) (db db1 : DB), runTx fs ops db = some db1 →
      db1 = ops.foldl (fun d op => op d) db := by
  induction ops with
  | nil =>
    intro fs db db1 h
    cases fs with
    | none => simpa [runTx] using h.symm
    | some n => simp [runTx] at h
  | cons op ops ih =>
    intro fs db db1 h
    cases fs with
    | none =>
      simp only [runTx, stepPred, List.foldl_cons] at h ⊢
      exact ih none (op db) db1 h
    | some n =>
      cases n with
      | zero => simp [runTx] at h
      | succ m =>
        simp only [runTx, stepPred, List.foldl_cons] at h ⊢
        exact ih (some m) (op db) db1 h

/-- Folding the decrement steps subtracts, from every product, the total
quantity the request asks of it. -/
theorem foldl_decrementOp (items : List ItemReq) :
    ∀ db : DB, (items.map decrementOp).foldl (fun d op => op d) db =
      { db with products :=
          db.products.map (fun p => { p with stock := p.stock - sumQty items p.id }) } := by
  induction items with
  | nil =>
    intro db
    have hmap : db.products.map (fun p => { p with stock := p.stock - sumQty [] p.id }) =
        db.products := by
      have : ∀ p ∈ db.products, ({ p with stock := p.stock - sumQty [] p.id } : Product) = p := by
        intro p _
        simp [sumQty]
      calc db.products.map (fun p => { p with stock := p.stock - sumQty [] p.id })
          = db.products.map id := List.map_congr_left (by simpa using this)
        _ = db.products := List.map_id db.products
    simp [hmap]
  | cons i is ih =>
    intro db
    simp only [List.map_cons, List.foldl_cons]
    rw [ih (decrementOp i db)]
    have hpt : ∀ p : Product,
        ({ (if p.id == i.productId then
              { p with stock := p.stock - numberOrZero i.quantity } else p) with
            stock := (if p.id == i.productId then
              { p with stock := p.stock - numberOrZero i.quantity } else p).stock -
                sumQty is (if p.id == i.productId then
                  { p with stock := p.stock - numberOrZero i.quantity } else p).id } : Product) =
          { p with stock := p.stock - sumQty (i :: is) p.id } := by
      intro p
      by_cases hid : p.id = i.productId
      · have hq : (i.productId == p.id) = true := by simpa using hid.symm
        simp only [hid, beq_self_eq_true, if_true]
        simp [sumQty, List.filter_cons, hq, sub_sub]
      · have hq : (i.productId == p.id) = false := by simpa using fun h => hid h.symm
        have hq2 : (p.id == i.productId) = false := by simpa using hid
        simp [sumQty, List.filter_cons, hq, hq2]
    simp only [decrementOp, List.map_map]
    congr 1
    calc db.products.map ((fun p => { p with stock := p.stock - sumQty is p.id }) ∘
            (fun p => if p.id == i.productId then
              { p with stock := p.stock - numberOrZero i.quantity } else p))
        = db.products.map (fun p => { p with stock := p.stock - sumQty (i :: is) p.id }) :=
          List.map_congr_left (fun p _ => hpt p)

/-- Inversion of the validation loop: on success every line found its
product, had coerced quantity at least 1 and at most the product's stock,
produced the snapshot row, and the total is the sum of price * quantity
over the produced rows. -/
theorem validateItems_ok (products : List Product) :
    ∀ (items : List ItemReq) (t : ℚ) (ds : List OrderItemData),
      validateItems products items = .ok (t, ds) →
      List.Forall₂ (lineOk products) items ds ∧
        t = (ds.map (fun d => d.price * d.quantity)).sum := by
  intro items
  induction items with
  | nil =>
    intro t ds h
    simp only [validateItems, Except.ok.injEq, Prod.mk.injEq] at h
    exact ⟨by simp [← h.2], by simp [← h.1, ← h.2]⟩
  | cons i rest ih =>
    intro t ds h
    cases hfind : products.find? (fun p => p.id == i.productId) with
    | none =>
      simp only [validateItems, hfind] at h
      exact absurd h (by simp)
    | some p =>
      simp only [validateItems, hfind] at h
      split at h
      case isTrue hq1 => exact absurd h (by simp)
      case isFalse hq1 =>
        split at h
        case isTrue hq2 => exact absurd h (by simp)
        case isFalse hq2 =>
          cases hrec : validateItems products rest with
          | error e =>
            simp only [hrec] at h
            exact absurd h (by simp)
          | ok pr =>
            obtain ⟨t1, ds1⟩ := pr
            simp only [hrec, Except.ok.injEq, Prod.mk.injEq] at h
            obtain ⟨ht, hds⟩ := h
            obtain ⟨hall, hsum⟩ := ih t1 ds1 hrec
            refine ⟨?_, ?_⟩
            · rw [← hds]
              exact List.Forall₂.cons
                ⟨p, hfind, not_lt.mp hq1, not_lt.mp hq2, rfl⟩ hall
            · rw [← hds, ← ht, hsum]
              simp

/-- Inversion of the transaction body: a commit returns the created order
row and the fold of the create and decrement steps. -/
theorem commitPhase_some (db : DB) (userId : Nat) (total : ℚ) (ds : List OrderItemData)
    (items : List ItemReq) (fs : Option Nat) (o : Order) (db1 : DB)
    (h : commitPhase db userId total ds items fs = some (o, db1)) :
    o = createdOrder db userId total ds ∧
      db1 = (items.map decrementOp).foldl (fun d op => op d) (createOp userId total ds db) := by
  simp only [commitPhase] at h
  cases hrun : runTx fs (createOp userId total ds :: items.map decrementOp) db with
  | none => rw [hrun] at h; exact absurd h (by simp)
  | some db2 =>
    rw [hrun] at h
    simp only [Option.some.injEq, Prod.mk.injEq] at h
    have := runTx_eq_foldl _ _ _ _ hrun
    rw [List.foldl_cons] at this
    exact ⟨h.1.symm, h.2.symm.trans this⟩

/-- The fully-applied store a committed placement produces. -/
theorem committed_db_shape (db : DB) (userId : Nat) (total : ℚ) (ds : List OrderItemData)
    (items : List ItemReq) (fs : Option Nat) (o : Order) (db1 : DB)
    (h : commitPhase db userId total ds items fs = some (o, db1)) :
    db1.orders = db.orders ++ [createdOrder db userId total ds] ∧
      db1.products = db.products.map (fun p => { p with stock := p.stock - sumQty items p.id }) ∧
      db1.nextOrderId = db.nextOrderId + 1 ∧ db1.users = db.users := by
  obtain ⟨-, hdb⟩ := commitPhase_some db userId total ds items fs o db1 h
  rw [foldl_decrementOp items (createOp userId total ds db)] at hdb
  subst hdb
  simp [createOp]

/-- Claim C2: order placement is atomic.  For every placement request,
transaction schedule and bump outcome, the store after the request is
either exactly the store before it, or the store with the order row, all
its line rows, and every stock decrement applied at once; no partial
combination is reachable. -/
theorem placeOrder_atomic (req : PlaceReq) (st : SrvState) (sched : List (Option Nat))
    (bwf : Bool) :
    (placeOrder req st sched bwf).2.db = st.db ∨
    ∃ user total ds, validatePhase st.db req = .ok (user, total, ds) ∧
      (placeOrder req st sched bwf).2.db.orders =
        st.db.orders ++ [createdOrder st.db req.userId total ds] ∧
      (placeOrder req st sched bwf).2.db.products =
        st.db.products.map (fun p => { p with stock := p.stock - sumQty req.items p.id }) ∧
      (placeOrder req st sched bwf).2.db.nextOrderId = st.db.nextOrderId + 1 := by
  cases hval : validatePhase st.db req with
  | error e => left; simp [placeOrder, hval]
  | ok v =>
    obtain ⟨user, total, ds⟩ := v
    cases hcommit : commitPhase st.db req.userId total ds req.items (txAttempt sched) with
    | none => left; simp [placeOrder, hval, hcommit]
    | some odb =>
      obtain ⟨o, db1⟩ := odb
      obtain ⟨ho, hp, hn, -⟩ := committed_db_shape _ _ _ _ _ _ _ _ hcommit
      right
      refine ⟨user, total, ds, rfl, ?_⟩
      have hdb : (placeOrder req st sched bwf).2.db = db1 := by
        simp only [placeOrder, hval, hcommit]
        by_cases hb : (bumpOrdersVer { st with db := db1 } bwf).2
        · simp only [hb, if_true]
          simp only [bumpOrdersVer] at hb ⊢
          by_cases hr : st.redisReady
          · by_cases hw : bwf
            · simp [hr, hw]
            · simp [hr, hw] at hb
          · simp [hr] at hb
        · simp only [hb, if_false]
          simp only [bumpOrdersVer] at hb ⊢
          by_cases hr : st.redisReady
          · by_cases hw : bwf
            · simp [hr, hw] at hb
            · simp [hr, hw]
          · simp [hr]
      rw [hdb]
      exact ⟨ho, hp, hn⟩

/-! ### Counting lemmas about the product fetch -/

/-- The ids of the fetched product rows repeat no id when the store does
not. -/
theorem findMany_ids_nodup (db : DB) (ids : List Nat)
    (hn : (db.products.map Product.id).Nodup) :
    ((findManyProducts db ids).map Product.id).Nodup :=
  hn.sublist (List.Sublist.map Product.id (List.filter_sublist db.products))

/-- Every fetched product row's id occurs among the requested ids. -/
theorem findMany_ids_subset (db : DB) (ids : List Nat) :
    ((findManyProducts db ids).map Product.id) ⊆ ids := by
  intro x hx
  obtain ⟨p, hp, hpx⟩ := List.mem_map.mp hx
  obtain ⟨-, hpred⟩ := List.mem_filter.mp hp
  rw [← hpx]
  simpa using hpred

/-- The fetch returns at most as many rows as there are distinct requested
ids. -/
theorem findMany_length_le_dedup (db : DB) (ids : List Nat)
    (hn : (db.products.map Product.id).Nodup) :
    (findManyProducts db ids).length ≤ ids.dedup.length := by
  have hsub : ((findManyProducts db ids).map Product.id) ⊆ ids.dedup := by
    intro x hx
    exact (List.mem_dedup).mpr (findMany_ids_subset db ids hx)
  have := (List.subperm_of_subset (findMany_ids_nodup db ids hn) hsub).length_le
  simpa using this

/-- A list with a repeated element strictly shrinks under dedup. -/
theorem dedup_length_lt_of_not_nodup (l : List Nat) (h : ¬ l.Nodup) :
    l.dedup.length < l.length := by
  rcases lt_or_eq_of_le (List.Sublist.length_le (List.dedup_sublist l)) with hlt | heq
  · exact hlt
  · exact absurd ((List.Sublist.eq_of_length (List.dedup_sublist l) heq) ▸ List.nodup_dedup l) h

/-- When the fetched row count matches the line count, the requested ids
were pairwise distinct. -/
theorem ids_nodup_of_count_eq (db : DB) (ids : List Nat)
    (hn : (db.products.map Product.id).Nodup)
    (hlen : (findManyProducts db ids).length = ids.length) : ids.Nodup := by
  by_contra hdup
  have h1 := findMany_length_le_dedup db ids hn
  have h2 := dedup_length_lt_of_not_nodup ids hdup
  omega

/-- When the fetched row count matches the line count, the fetched ids are
a permutation of the requested ids. -/
theorem findMany_ids_perm (db : DB) (ids : List Nat)
    (hn : (db.products.map Product.id).Nodup)
    (hlen : (findManyProducts db ids).length = ids.length) :
    ((findManyProducts db ids).map Product.id).Perm ids := by
  have hsp := List.subperm_of_subset (findMany_ids_nodup db ids hn) (findMany_ids_subset db ids)
  exact hsp.perm_of_length_le (by simpa using le_of_eq hlen.symm)

/-- When the fetched row count matches the line count, every requested id
is found among the fetched rows. -/
theorem findMany_find?_some (db : DB) (ids : List Nat) (i : Nat)
    (hn : (db.products.map Product.id).Nodup)
    (hlen : (findManyProducts db ids).length = ids.length) (hi : i ∈ ids) :
    ∃ p, (findManyProducts db ids).find? (fun p => p.id == i) = some p ∧
      p ∈ db.products ∧ p.id = i := by
  have hmem : i ∈ (findManyProducts db ids).map Product.id :=
    (findMany_ids_perm db ids hn hlen).mem_iff.mpr hi
  obtain ⟨p, hp, hpi⟩ := List.mem_map.mp hmem
  have hsome : ((findManyProducts db ids).find? (fun p => p.id == i)).isSome := by
    rw [List.find?_isSome]
    exact ⟨p, hp, by simpa using hpi⟩
  obtain ⟨p1, hp1⟩ := Option.isSome_iff_exists.mp hsome
  refine ⟨p1, hp1, ?_, ?_⟩
  · exact List.mem_of_mem_filter (List.mem_of_find?_eq_some hp1)
  · simpa using List.find?_some hp1

/-- In a store whose product ids are pairwise distinct, two product rows
with the same id are the same row. -/
theorem product_eq_of_id_eq (db : DB) (p q : Product)
    (hn : (db.products.map Product.id).Nodup)
    (hp : p ∈ db.products) (hq : q ∈ db.products) (hid : p.id = q.id) : p = q :=
  List.inj_on_of_nodup_map hn hp hq hid

/-- With pairwise-distinct line ids, the lines naming one id reduce to the
single such line. -/
theorem filter_eq_single_of_nodup (items : List ItemReq)
    (hn : (items.map (fun i => i.productId)).Nodup) (i : ItemReq) (hi : i ∈ items) :
    items.filter (fun j => j.productId == i.productId) = [i] := by
  induction items with
  | nil => cases hi
  | cons j rest ih =>
    simp only [List.map_cons, List.nodup_cons] at hn
    rcases List.mem_cons.mp hi with hji | hirest
    · subst hji
      have hrest : rest.filter (fun j => j.productId == i.productId) = [] := by
        rw [List.filter_eq_nil_iff]
        intro a ha
        simp only [beq_iff_eq]
        intro hcon
        exact hn.1 (hcon ▸ List.mem_map_of_mem (fun i => i.productId) ha)
      simp [List.filter_cons, hrest]
    · have hne : (j.productId == i.productId) = false := by
        simp only [beq_eq_false_iff_ne, ne_eq]
        intro hcon
        exact hn.1 (hcon ▸ List.mem_map_of_mem (fun i => i.productId) hirest)
      simp only [List.filter_cons, hne, Bool.false_eq_true, if_false]
      exact ih hn.2 hirest

/-- With pairwise-distinct line ids, the quantity charged to a referenced
product is exactly its line's coerced quantity. -/
theorem sumQty_of_nodup (items : List ItemReq)
    (hn : (items.map (fun i => i.productId)).Nodup) (i : ItemReq) (hi : i ∈ items) :
    sumQty items i.productId = numberOrZero i.quantity := by
  rw [sumQty, filter_eq_single_of_nodup items hn i hi]
  simp

/-- A product no line references keeps its stock: the charged quantity is
zero. -/
theorem sumQty_of_not_mem (items : List ItemReq) (pid : Nat)
    (h : ∀ i ∈ items, i.productId ≠ pid) : sumQty items pid = 0 := by
  rw [sumQty]
  have : items.filter (fun i => i.productId == pid) = [] := by
    rw [List.filter_eq_nil_iff]
    intro a ha
    simpa using h a ha
  rw [this]
  simp

/-! ### Case shapes of the placement handler -/

/-- A validation failure answers with its error, the state untouched. -/
theorem placeOrder_validate_err (req : PlaceReq) (st : SrvState) (sched : List (Option Nat))
    (bwf : Bool) (e : ErrResp) (hval : validatePhase st.db req = .error e) :
    placeOrder req st sched bwf = (.err e.status e.msg, st) := by
  simp [placeOrder, hval]

/-- A transaction abort answers 500 INTERNAL, the state untouched. -/
theorem placeOrder_tx_abort (req : PlaceReq) (st : SrvState) (sched : List (Option Nat))
    (bwf : Bool) (user : User) (total : ℚ) (ds : List OrderItemData)
    (hval : validatePhase st.db req = .ok (user, total, ds))
    (hcommit : commitPhase st.db req.userId total ds req.items (txAttempt sched) = none) :
    placeOrder req st sched bwf = (.err 500 .internal, st) := by
  simp [placeOrder, hval, hcommit]

/-- After a commit, the request answers through the bump: 201 with the
created order when the external version write worked, 500 INTERNAL when it
threw, the committed store kept either way. -/
theorem placeOrder_commit_eq (req : PlaceReq) (st : SrvState) (sched : List (Option Nat))
    (bwf : Bool) (user : User) (total : ℚ) (ds : List OrderItemData) (o : Order) (db1 : DB)
    (hval : validatePhase st.db req = .ok (user, total, ds))
    (hcommit : commitPhase st.db req.userId total ds req.items (txAttempt sched) = some (o, db1)) :
    placeOrder req st sched bwf =
      (if (bumpOrdersVer { st with db := db1 } bwf).2 then Resp.err 500 .internal
        else Resp.created 201 o,
        (bumpOrdersVer { st with db := db1 } bwf).1) := by
  simp only [placeOrder, hval, hcommit]
  by_cases hb : (bumpOrdersVer { st with db := db1 } bwf).2 <;> simp [hb]

/-- With a reliable external version write the bump never throws. -/
theorem bumpOrdersVer_ok (st : SrvState) : (bumpOrdersVer st false).2 = false := by
  by_cases hr : st.redisReady <;> simp [bumpOrdersVer, hr]

/-- The bump always increments the in-process counter and keeps the
store. -/
theorem bumpOrdersVer_shape (st : SrvState) (wf : Bool) :
    (bumpOrdersVer st wf).1.ordersVer = st.ordersVer + 1 ∧
      (bumpOrdersVer st wf).1.db = st.db ∧
      (bumpOrdersVer st wf).1.redisReady = st.redisReady := by
  by_cases hr : st.redisReady <;> by_cases hw : wf <;> simp [bumpOrdersVer, hr, hw]

/-- Inversion of the pre-transaction phase: success means the shape check,
the user lookup, the product count check and the validation loop all
passed. -/
theorem validatePhase_ok_inv (db : DB) (req : PlaceReq) (user : User) (total : ℚ)
    (ds : List OrderItemData) (h : validatePhase db req = .ok (user, total, ds)) :
    req.userId ≠ 0 ∧ req.items ≠ [] ∧
      db.users.find? (fun u => u.id == req.userId) = some user ∧
      (findManyProducts db (req.items.map (fun i => i.productId))).length = req.items.length ∧
      validateItems (findManyProducts db (req.items.map (fun i => i.productId))) req.items
        = .ok (total, ds) := by
  by_cases hshape : req.userId = 0 ∨ req.items = []
  · simp [validatePhase, hshape] at h
  · cases hfind : db.users.find? (fun u => u.id == req.userId) with
    | none => simp [validatePhase, hshape, hfind] at h
    | some u =>
      simp only [validatePhase, hshape, if_false, hfind] at h
      by_cases hlen : (findManyProducts db (req.items.map (fun i => i.productId))).length
          ≠ req.items.length
      · rw [if_pos hlen] at h
        exact absurd h (by simp)
      · rw [if_neg hlen] at h
        cases hitems : validateItems (findManyProducts db (req.items.map (fun i => i.productId)))
            req.items with
        | error e =>
          rw [hitems] at h
          exact absurd h (by simp)
        | ok pr =>
          obtain ⟨t1, ds1⟩ := pr
          rw [hitems] at h
          simp only [Except.ok.injEq, Prod.mk.injEq] at h
          push_neg at hshape
          refine ⟨hshape.1, hshape.2, ?_, not_not.mp hlen, ?_⟩
          · rw [h.1]
          · rw [h.2.1, h.2.2]

/-! ### Claim C10: duplicate lines are rejected by the count check -/

/-- Claim C10: a placement whose items list names the same existing
product on more than one line is rejected with 404 Some products not
found, although every referenced product exists, because the distinct
fetched rows are counted against the request lines. -/
theorem placeOrder_duplicate_rejected (req : PlaceReq) (st : SrvState)
    (sched : List (Option Nat)) (bwf : Bool) (user : User)
    (hn : (st.db.products.map Product.id).Nodup)
    (huid : req.userId ≠ 0)
    (huser : st.db.users.find? (fun u => u.id == req.userId) = some user)
    (hdup : ¬ (req.items.map (fun i => i.productId)).Nodup)
    (_hex : ∀ i ∈ req.items, ∃ p ∈ st.db.products, p.id = i.productId) :
    placeOrder req st sched bwf = (.err 404 .someProductsNotFound, st) := by
  have hne : req.items ≠ [] := by
    intro h
    rw [h] at hdup
    exact hdup (by simp)
  have hlen : (findManyProducts st.db (req.items.map (fun i => i.productId))).length
      ≠ req.items.length := by
    have h1 := findMany_length_le_dedup st.db (req.items.map (fun i => i.productId)) hn
    have h2 := dedup_length_lt_of_not_nodup _ hdup
    have h3 : (req.items.map (fun i => i.productId)).length = req.items.length :=
      List.length_map _ _
    omega
  have hval : validatePhase st.db req = .error ⟨404, .someProductsNotFound⟩ := by
    simp only [validatePhase, huser]
    rw [if_neg (not_or.mpr ⟨huid, hne⟩), if_pos hlen]
  exact placeOrder_validate_err req st sched bwf _ hval

/-- Witness for C10 on a concrete store and request: both lines name the
existing product 1, and the handler answers 404 Some products not found
without touching the state. -/
theorem placeOrder_duplicate_rejected_witness :
    placeOrder reqDup stOne [] false = (.err 404 .someProductsNotFound, stOne) := by
  refine placeOrder_duplicate_rejected reqDup stOne [] false ⟨1, "u", "e"⟩ ?_ ?_ ?_ ?_ ?_
  · decide
  · decide
  · rfl
  · decide
  · decide

/-! ### Claim C9: a failed placement mutates nothing -/

/-- Claim C9: a placement that fails for any of the reasons the handler
checks for (invalid arguments, missing user or product, insufficient
stock) or through a transaction abort leaves the whole server state, in
particular the version counter and every product's stock, unchanged. -/
theorem placeOrder_fail_no_mutation (req : PlaceReq) (st : SrvState) (sched : List (Option Nat))
    (s : Nat) (m : ErrMsg) (h : (placeOrder req st sched false).1 = .err s m) :
    (placeOrder req st sched false).2.ordersVer = st.ordersVer ∧
      (placeOrder req st sched false).2.db.products = st.db.products ∧
      (placeOrder req st sched false).2 = st := by
  have hst : (placeOrder req st sched false).2 = st := by
    cases hval : validatePhase st.db req with
    | error e => rw [placeOrder_validate_err req st sched false e hval]
    | ok v =>
      obtain ⟨user, total, ds⟩ := v
      cases hcommit : commitPhase st.db req.userId total ds req.items (txAttempt sched) with
      | none => rw [placeOrder_tx_abort req st sched false user total ds hval hcommit]
      | some odb =>
        obtain ⟨o, db1⟩ := odb
        rw [placeOrder_commit_eq req st sched false user total ds o db1 hval hcommit] at h
        rw [bumpOrdersVer_ok] at h
        simp at h
  exact ⟨by rw [hst], by rw [hst], hst⟩

/-- Witness for C9: the empty-items request fails with 400 and the state
is exactly the state before. -/
theorem placeOrder_fail_no_mutation_witness :
    (placeOrder ⟨1, []⟩ stOne [] false).1 = .err 400 .userIdItemsRequired ∧
      (placeOrder ⟨1, []⟩ stOne [] false).2 = stOne := by
  have h : (placeOrder ⟨1, []⟩ stOne [] false).1 = .err 400 .userIdItemsRequired := by
    simp [placeOrder, validatePhase]
  exact ⟨h, (placeOrder_fail_no_mutation ⟨1, []⟩ stOne [] 400 .userIdItemsRequired h).2.2⟩

/-! ### Claim C1: the stock invariant of the placement operation -/

/-- Pointwise extraction from a Forall₂ relation. -/
theorem forall₂_mem_left {α β : Type} {R : α → β → Prop} :
    ∀ {l1 : List α} {l2 : List β}, List.Forall₂ R l1 l2 → ∀ a ∈ l1, ∃ b ∈ l2, R a b := by
  intro l1 l2 h
  induction h with
  | nil => intro a ha; cases ha
  | cons hr hrest ih =>
    intro a ha
    rcases List.mem_cons.mp ha with rfl | har
    · exact ⟨_, List.mem_cons_self _ _, hr⟩
    · obtain ⟨b, hb, hrb⟩ := ih a har
      exact ⟨b, List.mem_cons_of_mem _ hb, hrb⟩

/-- When every line finds its product and has an admissible quantity but
some line asks more than the found product's stock, the validation loop
stops with the insufficient-stock error. -/
theorem validateItems_insufficient (products : List Product) :
    ∀ items : List ItemReq,
      (∀ i ∈ items, ∃ p, products.find? (fun p => p.id == i.productId) = some p) →
      (∀ i ∈ items, 1 ≤ numberOrZero i.quantity) →
      (∃ i ∈ items, ∃ p, products.find? (fun p => p.id == i.productId) = some p ∧
        p.stock < numberOrZero i.quantity) →
      ∃ name avail, validateItems products items = .error ⟨400, .notEnoughStock name avail⟩ := by
  intro items
  induction items with
  | nil =>
    intro _ _ hex
    obtain ⟨i, hi, -⟩ := hex
    cases hi
  | cons i rest ih =>
    intro hfind hq hex
    obtain ⟨p, hp⟩ := hfind i (List.mem_cons_self i rest)
    have hq1 : ¬ numberOrZero i.quantity < 1 := not_lt.mpr (hq i (List.mem_cons_self i rest))
    by_cases hs : p.stock < numberOrZero i.quantity
    · refine ⟨p.name, p.stock, ?_⟩
      simp only [validateItems, hp]
      rw [if_neg hq1, if_pos hs]
    · have hexr : ∃ j ∈ rest, ∃ p1, products.find? (fun p => p.id == j.productId) = some p1 ∧
          p1.stock < numberOrZero j.quantity := by
        obtain ⟨j, hj, p1, hp1, hs1⟩ := hex
        rcases List.mem_cons.mp hj with rfl | hjr
        · rw [hp] at hp1
          simp only [Option.some.injEq] at hp1
          subst hp1
          exact absurd hs1 hs
        · exact ⟨j, hjr, p1, hp1, hs1⟩
      obtain ⟨name, avail, hrec⟩ := ih (fun j hj => hfind j (List.mem_cons_of_mem i hj))
        (fun j hj => hq j (List.mem_cons_of_mem i hj)) hexr
      refine ⟨name, avail, ?_⟩
      simp only [validateItems, hp]
      rw [if_neg hq1, if_neg hs]
      simp only [hrec]

/-- Inversion of a 201 answer: the validation succeeded, the transaction
committed, and the response state carries the committed store. -/
theorem placeOrder_created_inv (req : PlaceReq) (st : SrvState) (sched : List (Option Nat))
    (bwf : Bool) (status : Nat) (o : Order)
    (h : (placeOrder req st sched bwf).1 = .created status o) :
    ∃ user total ds o1 db1,
      validatePhase st.db req = .ok (user, total, ds) ∧
      commitPhase st.db req.userId total ds req.items (txAttempt sched) = some (o1, db1) ∧
      (placeOrder req st sched bwf).2.db = db1 := by
  cases hval : validatePhase st.db req with
  | error e =>
    rw [placeOrder_validate_err req st sched bwf e hval] at h
    exact absurd h (by simp)
  | ok v =>
    obtain ⟨user, total, ds⟩ := v
    cases hcommit : commitPhase st.db req.userId total ds req.items (txAttempt sched) with
    | none =>
      rw [placeOrder_tx_abort req st sched bwf user total ds hval hcommit] at h
      exact absurd h (by simp)
    | some odb =>
      obtain ⟨o1, db1⟩ := odb
      refine ⟨user, total, ds, o1, db1, rfl, hcommit, ?_⟩
      rw [placeOrder_commit_eq req st sched bwf user total ds o1 db1 hval hcommit]
      exact (bumpOrdersVer_shape { st with db := db1 } bwf).2.1

/-- Claim C1: stock stays non-negative under placement.  In a store with
distinct product ids and non-negative stocks: a request whose lines all
carry admissible quantities but where some line asks more than the current
stock of its product is answered with the 400 insufficient-stock error and
no mutation; and a placement answered 201 has decremented each product's
stock by exactly the requested quantity, every stock remaining
non-negative. -/
theorem placeOrder_stock_invariant (req : PlaceReq) (st : SrvState) (sched : List (Option Nat))
    (bwf : Bool)
    (hn : (st.db.products.map Product.id).Nodup)
    (hinv : ∀ p ∈ st.db.products, 0 ≤ p.stock) :
    ((∀ i ∈ req.items, 1 ≤ numberOrZero i.quantity) →
      req.userId ≠ 0 →
      (∃ user, st.db.users.find? (fun u => u.id == req.userId) = some user) →
      (findManyProducts st.db (req.items.map (fun i => i.productId))).length
        = req.items.length →
      (∃ i ∈ req.items, ∃ p ∈ st.db.products, p.id = i.productId ∧
        p.stock < numberOrZero i.quantity) →
      ∃ name avail, placeOrder req st sched bwf = (.err 400 (.notEnoughStock name avail), st)) ∧
    (∀ status o, (placeOrder req st sched bwf).1 = .created status o →
      (placeOrder req st sched bwf).2.db.products =
        st.db.products.map (fun p => { p with stock := p.stock - sumQty req.items p.id }) ∧
      ∀ p ∈ (placeOrder req st sched bwf).2.db.products, 0 ≤ p.stock) := by
  constructor
  · intro hq huid huserex hlen hex
    obtain ⟨user, huser⟩ := huserex
    have hfind : ∀ i ∈ req.items, ∃ p,
        (findManyProducts st.db (req.items.map (fun i => i.productId))).find?
          (fun p => p.id == i.productId) = some p := by
      intro i hi
      obtain ⟨p, hp, -, -⟩ := findMany_find?_some st.db _ i.productId hn (by simpa using hlen)
        (List.mem_map_of_mem _ hi)
      exact ⟨p, hp⟩
    have hexf : ∃ i ∈ req.items, ∃ p,
        (findManyProducts st.db (req.items.map (fun i => i.productId))).find?
          (fun p => p.id == i.productId) = some p ∧ p.stock < numberOrZero i.quantity := by
      obtain ⟨i, hi, p, hpmem, hpid, hps⟩ := hex
      obtain ⟨p1, hp1, hp1mem, hp1id⟩ := findMany_find?_some st.db _ i.productId hn
        (by simpa using hlen) (List.mem_map_of_mem _ hi)
      have hpp : p1 = p := product_eq_of_id_eq st.db p1 p hn hp1mem hpmem (by rw [hp1id, hpid])
      subst hpp
      exact ⟨i, hi, p1, hp1, hps⟩
    obtain ⟨name, avail, hitems⟩ :=
      validateItems_insufficient (findManyProducts st.db (req.items.map (fun i => i.productId)))
        req.items hfind hq hexf
    have hne : req.items ≠ [] := by
      obtain ⟨i, hi, -⟩ := hex
      intro hcon
      rw [hcon] at hi
      cases hi
    have hval : validatePhase st.db req = .error ⟨400, .notEnoughStock name avail⟩ := by
      simp only [validatePhase, huser]
      rw [if_neg (not_or.mpr ⟨huid, hne⟩), if_neg (not_not.mpr hlen)]
      simp only [hitems]
    exact ⟨name, avail, placeOrder_validate_err req st sched bwf _ hval⟩
  · intro status o h
    obtain ⟨user, total, ds, o1, db1, hval, hcommit, hdb⟩ :=
      placeOrder_created_inv req st sched bwf status o h
    obtain ⟨huid, hne, huser, hlen, hitems⟩ := validatePhase_ok_inv st.db req user total ds hval
    obtain ⟨-, hprod, -, -⟩ :=
      committed_db_shape st.db req.userId total ds req.items (txAttempt sched) o1 db1 hcommit
    have hmain : (placeOrder req st sched bwf).2.db.products =
        st.db.products.map (fun p => { p with stock := p.stock - sumQty req.items p.id }) := by
      rw [hdb, hprod]
    refine ⟨hmain, ?_⟩
    rw [hmain]
    intro p' hp'
    obtain ⟨p, hp, rfl⟩ := List.mem_map.mp hp'
    show 0 ≤ p.stock - sumQty req.items p.id
    by_cases href : ∃ i ∈ req.items, i.productId = p.id
    · obtain ⟨i, hi, hipid⟩ := href
      have hidsnodup : (req.items.map (fun i => i.productId)).Nodup :=
        ids_nodup_of_count_eq st.db _ hn (by simpa using hlen)
      have hsq : sumQty req.items p.id = numberOrZero i.quantity := by
        rw [← hipid]
        exact sumQty_of_nodup req.items hidsnodup i hi
      obtain ⟨hall, -⟩ := validateItems_ok _ req.items total ds hitems
      obtain ⟨d, hd, hlok⟩ := forall₂_mem_left hall i hi
      obtain ⟨p2, hp2find, hq1, hqle, -⟩ := hlok
      have hp2mem : p2 ∈ st.db.products :=
        List.mem_of_mem_filter (List.mem_of_find?_eq_some hp2find)
      have hp2id : p2.id = i.productId := by simpa using List.find?_some hp2find
      have hpp : p2 = p := product_eq_of_id_eq st.db p2 p hn hp2mem hp (by rw [hp2id, hipid])
      subst hpp
      rw [hsq]
      exact sub_nonneg.mpr hqle
    · push_neg at href
      rw [sumQty_of_not_mem req.items p.id href]
      simpa using hinv p hp

/-- Witness for C1 at a concrete state: asking 7 of a product with stock 5
is answered with the 400 insufficient-stock error and no mutation. -/
theorem placeOrder_stock_invariant_witness :
    ∃ name avail, placeOrder reqOver stOne [] false
      = (.err 400 (.notEnoughStock name avail), stOne) := by
  refine (placeOrder_stock_invariant reqOver stOne [] false ?_ ?_).1 ?_ ?_ ?_ ?_ ?_
  · decide
  · decide
  · decide
  · decide
  · exact ⟨⟨1, "u", "e"⟩, rfl⟩
  · rfl
  · decide

/-! ### Claim C6: which quantities are rejected, and where -/

/-- 3/2 is not an integral rational. -/
theorem three_halves_not_int : ¬ ∃ n : ℤ, (3 : ℚ)/2 = (n : ℚ) := by
  rintro ⟨n, hn⟩
  have h1 : (1 : ℤ) < n := by
    have h : (1 : ℚ) < (n : ℚ) := by rw [← hn]; norm_num
    exact_mod_cast h
  have h2 : n < 2 := by
    have h : (n : ℚ) < 2 := by rw [← hn]; norm_num
    exact_mod_cast h
  omega

/-- The denominator of 3/2 is not 1. -/
theorem three_halves_den_ne_one : ((3 : ℚ)/2).den ≠ 1 := by
  intro h
  refine three_halves_not_int ⟨((3 : ℚ)/2).num, ?_⟩
  conv_lhs => rw [← Rat.num_div_den ((3 : ℚ)/2)]
  rw [h]
  simp

/-- The handler's validation accepts the fractional request: no 400 is
produced for quantity 3/2. -/
theorem validatePhase_reqFrac :
    validatePhase stOne.db reqFrac = .ok (⟨1, "u", "e"⟩, 15, [⟨1, 3/2, 10⟩]) := by
  simp [validatePhase, validateItems, findManyProducts, numberOrZero, stOne, dbOne, reqFrac,
    List.find?, List.filter]
  norm_num

/-- The schema's integer quantity column rejects the fractional line. -/
theorem schemaRejects_frac : schemaAcceptsLines [⟨1, 3/2, 10⟩] = false := by
  have h : (((3 : ℚ)/2).den == 1) = false := beq_eq_false_iff_ne.mpr three_halves_den_ne_one
  simp [schemaAcceptsLines, h]

/-- A request some of whose lines coerce below 1 can never validate. -/
theorem validatePhase_low_quantity_fails (req : PlaceReq) (st : SrvState)
    (hex : ∃ i ∈ req.items, numberOrZero i.quantity < 1) :
    ∀ user total ds, validatePhase st.db req ≠ .ok (user, total, ds) := by
  intro user total ds hval
  obtain ⟨-, -, -, -, hitems⟩ := validatePhase_ok_inv st.db req user total ds hval
  obtain ⟨hall, -⟩ := validateItems_ok _ req.items total ds hitems
  obtain ⟨i, hi, hqi⟩ := hex
  obtain ⟨d, -, hlok⟩ := forall₂_mem_left hall i hi
  obtain ⟨p2, -, hq1, -, -⟩ := hlok
  exact absurd hq1 (not_le.mpr hqi)

/-- Counterexample to C6: the non-integer quantity 3/2 is NOT rejected
with 400 before the transaction — the handler's validation accepts it
(only q < 1 is checked) and the rejection comes from the schema's integer
column inside the transaction, surfacing as 500 INTERNAL with the state
unchanged. -/
theorem fractional_quantity_500_cex :
    validatePhase stOne.db reqFrac = .ok (⟨1, "u", "e"⟩, 15, [⟨1, 3/2, 10⟩]) ∧
      placeOrderSchema reqFrac stOne [] false = (.err 500 .internal, stOne) ∧
      ¬ ∃ n : ℤ, (3 : ℚ)/2 = (n : ℚ) := by
  refine ⟨validatePhase_reqFrac, ?_, three_halves_not_int⟩
  simp [placeOrderSchema, validatePhase_reqFrac, schemaRejects_frac]

/-- Amended C6: a line whose coerced quantity Number(quantity || 0) is
below 1 (missing, zero or negative) makes the handler answer an error
before any mutation; but a non-integer quantity at least 1 passes the
handler's only check (q < 1) and is rejected only inside the transaction
by the schema's integer quantity column, surfacing as 500 INTERNAL with
the state unchanged — not as 400 InvalidArgument. -/
theorem placeOrderSchema_quantity (req : PlaceReq) (st : SrvState)
    (sched : List (Option Nat)) (bwf : Bool) :
    ((∃ i ∈ req.items, numberOrZero i.quantity < 1) →
      (∀ status o, (placeOrderSchema req st sched bwf).1 ≠ .created status o) ∧
        (placeOrderSchema req st sched bwf).2 = st) ∧
    (∀ user total ds, validatePhase st.db req = .ok (user, total, ds) →
      schemaAcceptsLines ds = false →
      placeOrderSchema req st sched bwf = (.err 500 .internal, st)) := by
  constructor
  · intro hex
    cases hval : validatePhase st.db req with
    | error e =>
      constructor
      · intro status o
        simp [placeOrderSchema, hval]
      · simp [placeOrderSchema, hval]
    | ok v =>
      obtain ⟨user, total, ds⟩ := v
      exact absurd hval (validatePhase_low_quantity_fails req st hex user total ds)
  · intro user total ds hval hsch
    simp [placeOrderSchema, hval, hsch]

/-- Witness for the amended C6: quantity 0 is rejected by the handler
with no mutation, and quantity 3/2 passes the handler but is answered 500
INTERNAL by the schema validation inside the transaction, the state
unchanged. -/
theorem placeOrderSchema_quantity_witness :
    ((∀ status o, (placeOrderSchema ⟨1, [⟨1, some 0⟩]⟩ stOne [] false).1 ≠ .created status o) ∧
        (placeOrderSchema ⟨1, [⟨1, some 0⟩]⟩ stOne [] false).2 = stOne) ∧
      placeOrderSchema reqFrac stOne [] false = (.err 500 .internal, stOne) := by
  constructor
  · exact (placeOrderSchema_quantity ⟨1, [⟨1, some 0⟩]⟩ stOne [] false).1
      ⟨⟨1, some 0⟩, by decide, by norm_num [numberOrZero]⟩
  · exact (placeOrderSchema_quantity reqFrac stOne [] false).2 ⟨1, "u", "e"⟩ 15 [⟨1, 3/2, 10⟩]
      validatePhase_reqFrac schemaRejects_frac

/-! ### Claim C7: a transaction conflict is not retried -/

/-- Counterexample to C7: with a schedule whose first attempt conflicts
and whose second attempt would succeed, the handler still answers 500 with
nothing applied — the second attempt is never made — although the same
inputs succeed when the only attempt commits. -/
theorem tx_conflict_not_retried_cex :
    placeOrder reqOne stOne [some 0, none] false = (.err 500 .internal, stOne) ∧
      (placeOrder reqOne stOne [none] false).1
        = Resp.created 201 ⟨1, 1, 20, [⟨1, 2, 10⟩], 1⟩ := by
  constructor <;>
  · simp [placeOrder, validatePhase, validateItems, findManyProducts, numberOrZero, commitPhase,
      runTx, createOp, decrementOp, createdOrder, bumpOrdersVer, stepPred, txAttempt,
      dbOne, stOne, reqOne, List.find?, List.filter]
    norm_num

/-- Amended C7: a conflict on the single transaction attempt surfaces at
once as 500 INTERNAL, whatever further attempt outcomes the schedule
holds, and the state is untouched (so the order is in particular never
applied twice). -/
theorem tx_conflict_immediate_500 (req : PlaceReq) (st : SrvState) (rest : List (Option Nat))
    (bwf : Bool) (user : User) (total : ℚ) (ds : List OrderItemData)
    (hval : validatePhase st.db req = .ok (user, total, ds)) :
    placeOrder req st (some 0 :: rest) bwf = (.err 500 .internal, st) := by
  have hcommit : commitPhase st.db req.userId total ds req.items (txAttempt (some 0 :: rest))
      = none := by
    simp [commitPhase, txAttempt, runTx]
  exact placeOrder_tx_abort req st (some 0 :: rest) bwf user total ds hval hcommit

/-- Witness for the amended C7 at a concrete conflicting placement. -/
theorem tx_conflict_immediate_500_witness :
    placeOrder reqOne stOne [some 0, none] false = (.err 500 .internal, stOne) := by
  have hval : validatePhase stOne.db reqOne = .ok (⟨1, "u", "e"⟩, 20, [⟨1, 2, 10⟩]) := by
    simp [validatePhase, validateItems, findManyProducts, numberOrZero, stOne, dbOne, reqOne,
      List.find?, List.filter]
    norm_num
  exact tx_conflict_immediate_500 reqOne stOne [none] false _ _ _ hval

/-! ### Claim C5: a failed post-commit bump fails the request -/

/-- Counterexample to C5: with the cache client connected and the external
version write failing, a placement whose transaction committed is answered
500 INTERNAL, not 201, even though the order row is in the store and the
in-process version was bumped. -/
theorem bump_failure_fails_request_cex :
    (placeOrder reqOne stOneReady [] true).1 = .err 500 .internal ∧
      (placeOrder reqOne stOneReady [] true).2.db.orders
        = [⟨1, 1, 20, [⟨1, 2, 10⟩], 1⟩] ∧
      (placeOrder reqOne stOneReady [] true).2.ordersVer = 2 := by
  refine ⟨?_, ?_, ?_⟩ <;>
  · simp [placeOrder, validatePhase, validateItems, findManyProducts, numberOrZero, commitPhase,
      runTx, createOp, decrementOp, createdOrder, bumpOrdersVer, stepPred, txAttempt,
      dbOne, stOneReady, reqOne, List.find?, List.filter]
    norm_num

/-- Amended C5: after the transaction has committed, a failing external
version write makes the request answer 500 INTERNAL while keeping the
committed order and the local version increment; only when the write
succeeds is the answer 201 with the created order.  (The notification
hand-off is a synchronous log and cannot fail.) -/
theorem bump_write_failure_post_commit (req : PlaceReq) (st : SrvState)
    (sched : List (Option Nat)) (user : User) (total : ℚ) (ds : List OrderItemData)
    (o : Order) (db1 : DB)
    (hval : validatePhase st.db req = .ok (user, total, ds))
    (hcommit : commitPhase st.db req.userId total ds req.items (txAttempt sched) = some (o, db1))
    (hready : st.redisReady = true) :
    placeOrder req st sched true
        = (.err 500 .internal, { st with db := db1, ordersVer := st.ordersVer + 1 }) ∧
      placeOrder req st sched false
        = (.created 201 o, { st with db := db1, ordersVer := st.ordersVer + 1,
                                     redisVer := some (st.ordersVer + 1) }) := by
  constructor
  · rw [placeOrder_commit_eq req st sched true user total ds o db1 hval hcommit]
    simp [bumpOrdersVer, hready]
  · rw [placeOrder_commit_eq req st sched false user total ds o db1 hval hcommit]
    simp [bumpOrdersVer, hready]

/-- Witness for the amended C5 at a concrete committed placement. -/
theorem bump_write_failure_post_commit_witness :
    placeOrder reqOne stOneReady [] true
        = (.err 500 .internal,
            { stOneReady with
                db := ⟨[⟨1, "u", "e"⟩], [⟨1, "A", 10, 3⟩], [⟨1, 1, 20, [⟨1, 2, 10⟩], 1⟩], 2⟩,
                ordersVer := 2 }) := by
  have hval : validatePhase stOneReady.db reqOne = .ok (⟨1, "u", "e"⟩, 20, [⟨1, 2, 10⟩]) := by
    simp [validatePhase, validateItems, findManyProducts, numberOrZero, stOneReady, dbOne, reqOne,
      List.find?, List.filter]
    norm_num
  have hcommit : commitPhase stOneReady.db reqOne.userId 20 [⟨1, 2, 10⟩] reqOne.items
      (txAttempt []) = some (⟨1, 1, 20, [⟨1, 2, 10⟩], 1⟩,
        ⟨[⟨1, "u", "e"⟩], [⟨1, "A", 10, 3⟩], [⟨1, 1, 20, [⟨1, 2, 10⟩], 1⟩], 2⟩) := by
    simp [commitPhase, runTx, createOp, decrementOp, createdOrder, stepPred, txAttempt,
      numberOrZero, stOneReady, dbOne, reqOne]
    norm_num
  exact (bump_write_failure_post_commit reqOne stOneReady [] _ _ _ _ _ hval hcommit rfl).1

/-! ### Claim C3: where the price snapshot is read -/

/-- Pointwise extraction from a Forall₂ relation, from the right list. -/
theorem forall₂_mem_right {α β : Type} {R : α → β → Prop} :
    ∀ {l1 : List α} {l2 : List β}, List.Forall₂ R l1 l2 → ∀ b ∈ l2, ∃ a ∈ l1, R a b := by
  intro l1 l2 h
  induction h with
  | nil => intro b hb; cases hb
  | cons hr hrest ih =>
    intro b hb
    rcases List.mem_cons.mp hb with rfl | hbr
    · exact ⟨_, List.mem_cons_self _ _, hr⟩
    · obtain ⟨a, ha, hra⟩ := ih b hbr
      exact ⟨a, List.mem_cons_of_mem _ ha, hra⟩

/-- Inversion of a 201 answer of the interleaved placement: the validation
over the pre-update store succeeded and the answered order is the one the
transaction created, its total and lines those of the validation. -/
theorem placeOrderInterleaved_created_inv (req : PlaceReq) (st : SrvState) (upd : DB → DB)
    (sched : List (Option Nat)) (bwf : Bool) (status : Nat) (o : Order)
    (h : (placeOrderInterleaved req st upd sched bwf).1 = .created status o) :
    ∃ user total ds,
      validatePhase st.db req = .ok (user, total, ds) ∧
      o = createdOrder (upd st.db) req.userId total ds := by
  cases hval : validatePhase st.db req with
  | error e => simp [placeOrderInterleaved, hval] at h
  | ok v =>
    obtain ⟨user, total, ds⟩ := v
    cases hcommit : commitPhase (upd st.db) req.userId total ds req.items (txAttempt sched) with
    | none => simp [placeOrderInterleaved, hval, hcommit] at h
    | some odb =>
      obtain ⟨o1, db1⟩ := odb
      obtain ⟨ho1, -⟩ := commitPhase_some _ _ _ _ _ _ _ _ hcommit
      refine ⟨user, total, ds, rfl, ?_⟩
      by_cases hb : (bumpOrdersVer { st with db := db1 } bwf).2
      · simp [placeOrderInterleaved, hval, hcommit, hb] at h
      · simp only [placeOrderInterleaved, hval, hcommit, hb, Bool.false_eq_true, if_false,
          Resp.created.injEq] at h
        rw [← h.2, ho1]

/-- Counterexample to C3: a price update committed between the product
fetch and the transaction is not reflected: the order snapshots price 10
and total 20 although the price read inside the decrementing transaction's
store is 20 (which would give snapshot 20 and total 40). -/
theorem price_snapshot_stale_cex :
    (placeOrderInterleaved reqOne stOne raisePrices [] false).1
        = Resp.created 201 ⟨1, 1, 20, [⟨1, 2, 10⟩], 1⟩ ∧
      ((raisePrices stOne.db).products.map Product.price) = [20] ∧
      ((10 : ℚ) ≠ 20) := by
  refine ⟨?_, by simp [raisePrices, stOne, dbOne], by norm_num⟩
  simp [placeOrderInterleaved, validatePhase, validateItems, findManyProducts, numberOrZero,
    commitPhase, runTx, createOp, decrementOp, createdOrder, bumpOrdersVer, stepPred, txAttempt,
    dbOne, stOne, reqOne, raisePrices, List.find?, List.filter]
  norm_num

/-- Amended C3: every line's unit-price snapshot and the order total come
from the product rows fetched before the transaction (the pre-update
store), so the total is the sum of those earlier prices times the
quantities; a price change committed in between is not consulted. -/
theorem price_snapshot_from_preread (req : PlaceReq) (st : SrvState) (upd : DB → DB)
    (sched : List (Option Nat)) (bwf : Bool) (status : Nat) (o : Order)
    (h : (placeOrderInterleaved req st upd sched bwf).1 = .created status o) :
    (∀ d ∈ o.orderItems, ∃ p ∈ st.db.products, p.id = d.productId ∧ d.price = p.price) ∧
      o.total = (o.orderItems.map (fun d => d.price * d.quantity)).sum := by
  obtain ⟨user, total, ds, hval, ho⟩ :=
    placeOrderInterleaved_created_inv req st upd sched bwf status o h
  obtain ⟨-, -, -, -, hitems⟩ := validatePhase_ok_inv st.db req user total ds hval
  obtain ⟨hall, hsum⟩ := validateItems_ok _ req.items total ds hitems
  subst ho
  constructor
  · intro d hd
    obtain ⟨i, hi, hlok⟩ := forall₂_mem_right hall d hd
    obtain ⟨p2, hfind, -, -, hdval⟩ := hlok
    subst hdval
    exact ⟨p2, List.mem_of_mem_filter (List.mem_of_find?_eq_some hfind), rfl, rfl⟩
  · simpa [createdOrder] using hsum

/-- Witness for the amended C3 at the concrete interleaved placement of
the counterexample. -/
theorem price_snapshot_from_preread_witness :
    (∀ d ∈ (⟨1, 1, 20, [⟨1, 2, 10⟩], 1⟩ : Order).orderItems,
        ∃ p ∈ stOne.db.products, p.id = d.productId ∧ d.price = p.price) ∧
      (⟨1, 1, 20, [⟨1, 2, 10⟩], 1⟩ : Order).total
        = ((⟨1, 1, 20, [⟨1, 2, 10⟩], 1⟩ : Order).orderItems.map
            (fun d => d.price * d.quantity)).sum := by
  refine price_snapshot_from_preread reqOne stOne raisePrices [] false 201 _ ?_
  simp [placeOrderInterleaved, validatePhase, validateItems, findManyProducts, numberOrZero,
    commitPhase, runTx, createOp, decrementOp, createdOrder, bumpOrdersVer, stepPred, txAttempt,
    dbOne, stOne, reqOne, raisePrices, List.find?, List.filter]
  norm_num

/-! ### Claim C4: what a cache fault does to a listing -/

/-- The version read keeps the connection flag. -/
theorem getOrdersVer_redisReady (st : SrvState) :
    (getOrdersVer st).2.redisReady = st.redisReady := by
  by_cases hr : st.redisReady
  · cases hv : st.redisVer <;> simp [getOrdersVer, hr, hv]
  · simp [getOrdersVer, hr]

/-- With the cache client disconnected the listing serves straight from
the store, whatever the injected fault flags say. -/
theorem listOrders_no_redis (req : ListReq) (st : SrvState) (cache : Cache) (gf sf : Bool)
    (hr : st.redisReady = false) :
    listOrders req st cache gf sf
      = (.ok (computePayload st.db (max 1 req.page) (max 1 req.limit) req.search), st, cache) := by
  simp [listOrders, getOrdersVer, hr]

/-- With the client connected, a throwing cache read reaches the route's
catch-all and the request is answered 500 INTERNAL. -/
theorem listOrders_getFault (req : ListReq) (st : SrvState) (cache : Cache) (sf : Bool)
    (hr : st.redisReady = true) :
    (listOrders req st cache true sf).1 = .internalErr := by
  have h1 : (getOrdersVer st).2.redisReady = true := by
    rw [getOrdersVer_redisReady, hr]
  simp [listOrders, h1]

/-- Amended C4: when the cache client is not connected the listing
degrades to direct store access whatever the injected fault flags say; but
when the client is connected, a throwing cache read — or, on a miss, a
throwing cache write — reaches the route's catch-all and the request is
answered 500 INTERNAL instead of the listing. -/
theorem listOrders_cache_fault (req : ListReq) (st : SrvState) (cache : Cache)
    (gf sf : Bool) :
    (st.redisReady = false →
      listOrders req st cache gf sf
        = (.ok (computePayload st.db (max 1 req.page) (max 1 req.limit) req.search), st, cache)) ∧
    (st.redisReady = true → gf = true →
      (listOrders req st cache gf sf).1 = .internalErr) ∧
    (st.redisReady = true → gf = false → sf = true →
      List.lookup (buildOrdersKey (max 1 req.page) (max 1 req.limit) req.search
        (getOrdersVer st).1) cache = none →
      (listOrders req st cache gf sf).1 = .internalErr) := by
  refine ⟨?_, ?_, ?_⟩
  · intro hr
    exact listOrders_no_redis req st cache gf sf hr
  · intro hr hg
    subst hg
    exact listOrders_getFault req st cache sf hr
  · intro hr hg hsf hlook
    subst hg
    subst hsf
    have h1 : (getOrdersVer st).2.redisReady = true := by
      rw [getOrdersVer_redisReady, hr]
    simp [listOrders, h1, hlook]

/-- Counterexample to C4: with the client connected, a throwing cache
read — and likewise a throwing cache write on a miss — makes the listing
request answer 500 INTERNAL rather than degrade to the store; the same
request with the client disconnected does return the listing. -/
theorem cache_fault_aborts_listing_cex :
    (listOrders ⟨1, 5, ""⟩ stOneReady [] true false).1 = ListResp.internalErr ∧
      (listOrders ⟨1, 5, ""⟩ stOneReady [] false true).1 = ListResp.internalErr ∧
      (listOrders ⟨1, 5, ""⟩ stOne [] true false).1
        = .ok (computePayload stOne.db (max 1 1) (max 1 5) "") := by
  refine ⟨?_, ?_, ?_⟩
  · simp [listOrders, getOrdersVer, stOneReady]
  · simp [listOrders, getOrdersVer, stOneReady, buildOrdersKey]
  · simp [listOrders, getOrdersVer, stOne]

/-- Witness for the amended C4, instantiating all three parts at concrete
requests: disconnected degradation, a faulting read, and a faulting write
on a miss. -/
theorem listOrders_cache_fault_witness :
    listOrders ⟨1, 5, ""⟩ stOne [] true true
        = (.ok (computePayload stOne.db (max 1 1) (max 1 5) ""), stOne, []) ∧
      (listOrders ⟨1, 5, ""⟩ stOneReady [] true false).1 = .internalErr ∧
      (listOrders ⟨1, 5, ""⟩ stOneReady [] false true).1 = .internalErr := by
  refine ⟨?_, ?_, ?_⟩
  · exact (listOrders_cache_fault ⟨1, 5, ""⟩ stOne [] true true).1 rfl
  · exact (listOrders_cache_fault ⟨1, 5, ""⟩ stOneReady [] true false).2.1 rfl rfl
  · exact (listOrders_cache_fault ⟨1, 5, ""⟩ stOneReady [] false true).2.2 rfl rfl rfl rfl

/-! ### Claim C8: the pagination metadata -/

/-- The integer form of Math.ceil(total/limit) brackets the dividend. -/
theorem jsCeilDiv_spec (a b : Nat) (hb : 0 < b) :
    b * jsCeilDiv a b < a + b ∧ a ≤ b * jsCeilDiv a b := by
  have hmod := Nat.div_add_mod (a + b - 1) b
  have hlt : (a + b - 1) % b < b := Nat.mod_lt _ hb
  unfold jsCeilDiv
  omega

/-- Math.ceil(total/limit) on naturals is the rational ceiling. -/
theorem jsCeilDiv_eq_ceil (a b : Nat) (hb : 0 < b) :
    jsCeilDiv a b = Nat.ceil ((a : ℚ) / (b : ℚ)) := by
  obtain ⟨h1, h2⟩ := jsCeilDiv_spec a b hb
  have hbq : (0 : ℚ) < (b : ℚ) := by exact_mod_cast hb
  rcases Nat.eq_zero_or_pos a with rfl | ha
  · have hz : jsCeilDiv 0 b = 0 := by
      unfold jsCeilDiv
      exact Nat.div_eq_of_lt (by omega)
    rw [hz]
    simp
  · have hn0 : jsCeilDiv a b ≠ 0 := by
      intro h
      rw [h] at h2
      omega
    have hmul : b * (jsCeilDiv a b - 1) + b = b * jsCeilDiv a b := by
      cases hn : jsCeilDiv a b with
      | zero => exact absurd hn hn0
      | succ m => simp [Nat.mul_succ]
    have hcomm : jsCeilDiv a b * b = b * jsCeilDiv a b := Nat.mul_comm _ _
    rw [eq_comm, Nat.ceil_eq_iff hn0]
    constructor
    · rw [lt_div_iff₀ hbq]
      have hx : b * (jsCeilDiv a b - 1) < a := by omega
      calc ((jsCeilDiv a b - 1 : ℕ) : ℚ) * b = ((b * (jsCeilDiv a b - 1) : ℕ) : ℚ) := by
            push_cast
            ring
        _ < a := by exact_mod_cast hx
    · rw [div_le_iff₀ hbq]
      have hx : a ≤ jsCeilDiv a b * b := by omega
      exact_mod_cast hx

/-- The payload the store query builds satisfies the pagination law. -/
theorem computePayload_paginationOk (db : DB) (page limit : Nat) (search : String)
    (hl : 0 < limit) : paginationOk (computePayload db page limit search) := by
  unfold paginationOk computePayload
  simp only
  rw [jsCeilDiv_eq_ceil _ _ hl]

/-- A successful assoc-list lookup returns a stored value. -/
theorem lookup_mem_values (key : String) (pl : Payload) :
    ∀ cache : Cache, List.lookup key cache = some pl → ∃ e ∈ cache, e.2 = pl := by
  intro cache
  induction cache with
  | nil => intro h; simp [List.lookup] at h
  | cons e rest ih =>
    obtain ⟨k, v⟩ := e
    intro h
    rw [List.lookup] at h
    cases hk : (key == k) with
    | true =>
      simp only [hk, Option.some.injEq] at h
      exact ⟨(k, v), List.mem_cons_self _ _, h⟩
    | false =>
      simp only [hk] at h
      obtain ⟨e1, he1, he2⟩ := ih h
      exact ⟨e1, List.mem_cons_of_mem _ he1, he2⟩

/-- The four outcomes of a listing request: a cache fault answered 500
with the cache kept; a hit returning a stored payload; or the store
query's payload, the cache kept (disconnected) or extended (repopulated
miss). -/
theorem listOrders_shape (req : ListReq) (st : SrvState) (cache : Cache) (gf sf : Bool) :
    ((listOrders req st cache gf sf).1 = .internalErr ∧
      (listOrders req st cache gf sf).2.2 = cache) ∨
    (∃ key pl, List.lookup key cache = some pl ∧
      (listOrders req st cache gf sf).1 = .ok pl ∧
      (listOrders req st cache gf sf).2.2 = cache) ∨
    ((listOrders req st cache gf sf).1
        = .ok (computePayload st.db (max 1 req.page) (max 1 req.limit) req.search) ∧
      ((listOrders req st cache gf sf).2.2 = cache ∨
        ∃ key, (listOrders req st cache gf sf).2.2
          = (key, computePayload st.db (max 1 req.page) (max 1 req.limit) req.search) :: cache)) := by
  have hdb : (getOrdersVer st).2.db = st.db := by
    by_cases hr : st.redisReady
    · cases hv : st.redisVer <;> simp [getOrdersVer, hr, hv]
    · simp [getOrdersVer, hr]
  cases hr : st.redisReady with
  | false =>
    right; right
    have h := listOrders_no_redis req st cache gf sf hr
    rw [h]
    exact ⟨rfl, Or.inl rfl⟩
  | true =>
    have h1 : (getOrdersVer st).2.redisReady = true := by rw [getOrdersVer_redisReady, hr]
    cases hg : gf with
    | true =>
      left
      refine ⟨listOrders_getFault req st cache sf hr, ?_⟩
      simp [listOrders, h1]
    | false =>
      cases hlook : List.lookup
          (buildOrdersKey (max 1 req.page) (max 1 req.limit) req.search (getOrdersVer st).1)
          cache with
      | some pl =>
        right; left
        exact ⟨_, pl, hlook, by simp [listOrders, h1, hg, hlook],
          by simp [listOrders, h1, hg, hlook]⟩
      | none =>
        cases hsf : sf with
        | true =>
          left
          constructor <;> simp [listOrders, h1, hg, hlook, hsf]
        | false =>
          right; right
          refine ⟨by simp [listOrders, h1, hg, hlook, hsf, hdb], Or.inr
            ⟨buildOrdersKey (max 1 req.page) (max 1 req.limit) req.search (getOrdersVer st).1,
              ?_⟩⟩
          simp [listOrders, h1, hg, hlook, hsf, hdb]

/-- Claim C8: when the cached payloads obey the pagination law, every
listing answer does: an answered payload has totalPages equal to
max(1, ceil(total / limit)), the cache only ever holds such payloads, and
(the empty-result scenario, on the direct-store path) a search matching no
order is answered with total 0, an empty data list and totalPages 1. -/
theorem listOrders_pagination (req : ListReq) (st : SrvState) (cache : Cache) (gf sf : Bool)
    (hc : ∀ e ∈ cache, paginationOk e.2) :
    (∀ pl, (listOrders req st cache gf sf).1 = .ok pl → paginationOk pl) ∧
      (∀ e ∈ (listOrders req st cache gf sf).2.2, paginationOk e.2) ∧
      (st.redisReady = false → whereFilter st.db req.search = [] →
        (listOrders req st cache gf sf).1
          = .ok ⟨[], ⟨max 1 req.page, max 1 req.limit, 0, 1⟩⟩) := by
  have hcp : paginationOk (computePayload st.db (max 1 req.page) (max 1 req.limit) req.search) :=
    computePayload_paginationOk _ _ _ _ (by omega)
  have hscen : st.redisReady = false → whereFilter st.db req.search = [] →
      (listOrders req st cache gf sf).1
        = .ok ⟨[], ⟨max 1 req.page, max 1 req.limit, 0, 1⟩⟩ := by
    intro hr hempty
    have h := listOrders_no_redis req st cache gf sf hr
    rw [h]
    have hz : jsCeilDiv 0 (max 1 req.limit) = 0 := by
      unfold jsCeilDiv
      exact Nat.div_eq_of_lt (by omega)
    simp [computePayload, hempty, sortByCreatedAtDesc, hz]
  rcases listOrders_shape req st cache gf sf with ⟨h1, h2⟩ | ⟨key, pl, hlook, h1, h2⟩ | ⟨h1, h2⟩
  · refine ⟨?_, ?_, hscen⟩
    · intro pl hpl
      rw [h1] at hpl
      cases hpl
    · intro e he
      rw [h2] at he
      exact hc e he
  · refine ⟨?_, ?_, hscen⟩
    · intro pl1 hpl
      rw [h1] at hpl
      simp only [ListResp.ok.injEq] at hpl
      obtain ⟨e, he, hev⟩ := lookup_mem_values key pl cache hlook
      rw [← hpl, ← hev]
      exact hc e he
    · intro e he
      rw [h2] at he
      exact hc e he
  · refine ⟨?_, ?_, hscen⟩
    · intro pl hpl
      rw [h1] at hpl
      simp only [ListResp.ok.injEq] at hpl
      rw [← hpl]
      exact hcp
    · intro e he
      rcases h2 with h2 | ⟨key, h2⟩
      · rw [h2] at he
        exact hc e he
      · rw [h2] at he
        rcases List.mem_cons.mp he with rfl | he1
        · exact hcp
        · exact hc e he1

/-- Witness for C8: a search matching nothing over an empty order table,
with the cache disconnected, answers total 0, no rows, totalPages 1. -/
theorem listOrders_pagination_witness :
    (listOrders ⟨1, 5, "z"⟩ stOne [] false false).1
      = .ok ⟨[], ⟨max 1 1, max 1 5, 0, 1⟩⟩ := by
  refine (listOrders_pagination ⟨1, 5, "z"⟩ stOne [] false false ?_).2.2 rfl ?_
  · intro e he
    cases he
  · simp [whereFilter, stOne, dbOne]

end OrderApp
